import Mathlib

/-!
Shallow embedding of the streaming whois record parser (src/parser.py).

The embedding mirrors the source file:
* `pyStrip`, `pyStartsWith`, `pySplit`, `pyJoin` model the Python string
  operations `str.strip()`, `str.startswith`, `str.split(sep)` and
  `sep.join(list)` used by the parser (ASCII whitespace set for `strip`;
  the attribute divider, `':'` in the source default, is modelled as a
  single character, which is exactly how `str.split` treats the one-character
  divider string).
* `DocValue` models the two runtime shapes a `WhoisDocument` value can have
  in Python: a list of fragment strings, or a joined string.
* `WhoisDocument` models the ordered dictionary: an insertion-ordered
  association list with unique keys; `dictSet`, `dictAppend`, `containsKey`,
  `dictLookup` model `d[k] = v`, `d[k].append(v)`, `k in d` and `d[k]`.
* `joinValues` models `WhoisDocument.join_values`.
* `parseLine` models `WhoisTextParser._parse_line`, returning `Except` for
  the `ValueError` that tuple-unpacking of `line.split(divider)` can raise.
* `nextLoop` models one call of `WhoisTextParser.__next__`: it walks the
  remaining lines with the in-progress document and `last_attribute_name`
  (`Option String`: `none` is Python `None`, `some ""` the initial `''`),
  and returns `none` for `StopIteration` or the finalized document plus the
  lines left unconsumed.
* `parseSteps` / `parseAll` model the consuming `for document in parser`
  loop: repeated `__next__` calls until `StopIteration`, with any Python
  exception propagating.  The fuel argument of `parseSteps` is one more than
  the number of lines, which is proved sufficient (`parseSteps_fuel_stable`).
-/

/-- ASCII whitespace characters stripped by Python `str.strip()`. -/
def isPySpace (c : Char) : Bool :=
  c == ' ' || c == '\t' || c == '\n' || c == '\r' || c == '\x0b' || c == '\x0c'

/-- Strip leading and trailing whitespace from a character list. -/
def stripL (l : List Char) : List Char :=
  (l.dropWhile isPySpace).rdropWhile isPySpace

/-- Python `s.strip()`. -/
def pyStrip (s : String) : String :=
  ⟨stripL s.data⟩

/-- Python `s.startswith(pre)`. -/
def pyStartsWith (s pre : String) : Bool :=
  pre.data.isPrefixOf s.data

/-- Python `s.split(sep)` for a one-character separator, on character lists:
splits at every occurrence of the separator. -/
def pySplitList (sep : Char) : List Char → List (List Char)
  | [] => [[]]
  | c :: cs =>
    match pySplitList sep cs with
    | [] => [[]]
    | h :: t => if c == sep then [] :: h :: t else (c :: h) :: t

/-- Python `line.split(divider)` for the one-character attribute divider. -/
def pySplit (sep : Char) (s : String) : List String :=
  (pySplitList sep s.data).map (fun l => ⟨l⟩)

/-- Python `sep.join(parts)`. -/
def pyJoin (sep : String) : List String → String
  | [] => ""
  | [x] => x
  | x :: y :: xs => x ++ sep ++ pyJoin sep (y :: xs)

/-- The Python exceptions the parser code can raise while producing
documents: `ValueError` from unpacking `line.split(divider)` into two
variables, `KeyError` from `document[key]` on a missing key, and
`AttributeError` from calling `.append` on a value that is already a
string. -/
inductive PyErr where
  | valueError : String → PyErr
  | keyError : String → PyErr
  | attributeError : String → PyErr
deriving DecidableEq, Repr

/-- A value stored in a `WhoisDocument`: in the Python code it is either a
list of fragment strings (during accumulation) or a single joined string
(after `join_values`). -/
inductive DocValue where
  | frags : List String → DocValue
  | strv : String → DocValue
deriving DecidableEq, Repr

/-- `WhoisDocument`: the insertion-ordered dictionary of the source,
modelled as an association list in insertion order with unique keys. -/
abbrev WhoisDocument := List (String × DocValue)

/-- Python `key in document`. -/
def containsKey (d : WhoisDocument) (k : String) : Bool :=
  d.any (fun p => p.1 == k)

/-- Python `document[key]` as a total lookup: the value at `key`, if any. -/
def dictLookup (d : WhoisDocument) (k : String) : Option DocValue :=
  (d.find? (fun p => p.1 == k)).map Prod.snd

/-- Python `document[key] = v`: replace in place if the key exists,
otherwise append at the end (dict insertion order). -/
def dictSet (d : WhoisDocument) (k : String) (v : DocValue) : WhoisDocument :=
  if containsKey d k then d.map (fun p => if p.1 == k then (k, v) else p)
  else d ++ [(k, v)]

/-- Python `document[key].append(v)`: `KeyError` if the key is missing,
`AttributeError` if the stored value is a string rather than a list. -/
def dictAppend (d : WhoisDocument) (k : String) (v : String) :
    Except PyErr WhoisDocument :=
  match dictLookup d k with
  | none => .error (.keyError k)
  | some (.strv _) => .error (.attributeError k)
  | some (.frags l) =>
    .ok (d.map (fun p => if p.1 == k then (k, DocValue.frags (l ++ [v])) else p))

/-- `WhoisDocument.join_values(join_with)`: every list value is joined into
one string; string values are left alone. -/
def joinValues (sep : String) (d : WhoisDocument) : WhoisDocument :=
  d.map (fun p =>
    match p.2 with
    | .frags l => (p.1, DocValue.strv (pyJoin sep l))
    | .strv _ => p)

/-- A finalized document: every value is a single string (the shape
`join_values` leaves behind, which is also the only shape Python can hash). -/
def allStrv (d : WhoisDocument) : Bool :=
  d.all (fun p => match p.2 with | .strv _ => true | .frags _ => false)

/-- The keys of the document are pairwise distinct (a Python dict
invariant). -/
def keysNodup (d : WhoisDocument) : Prop :=
  (d.map Prod.fst).Nodup

/-- Every key of the document is trimmed of surrounding whitespace, i.e.
stripping it again changes nothing. -/
def keysStripped (d : WhoisDocument) : Prop :=
  ∀ p ∈ d, pyStrip p.1 = p.1

/-- Python `dict.__eq__`: two documents are equal iff they agree as
mappings, i.e. looking up any key gives the same result. -/
def pyDictEqDoc (d1 d2 : WhoisDocument) : Prop :=
  ∀ k, dictLookup d1 k = dictLookup d2 k

/-- A concrete finalized two-attribute document. -/
def docA : WhoisDocument :=
  [("a", DocValue.strv "1"), ("b", DocValue.strv "2")]

/-- The same attribute/value pairs as `docA`, inserted in the other order. -/
def docB : WhoisDocument :=
  [("b", DocValue.strv "2"), ("a", DocValue.strv "1")]

/-- The input of `WhoisDocument.__hash__`, which is
`hash(frozenset(self.items()))`: the unordered set of (attribute, value)
pairs.  Python's hash is a fixed function of this frozenset, so two
documents with equal `frozensetItems` have equal hashes. -/
def frozensetItems (d : WhoisDocument) : Finset (String × DocValue) :=
  d.toFinset

/-- The `WhoisTextParser` configuration: attribute divider (source default
`':'`), document divider pattern (source default a bare newline line) and
commentary marker (source default `'#'`). -/
structure ParserConfig where
  attributeDivider : Char
  documentDividerPattern : String
  commentarySymbol : String
deriving DecidableEq, Repr

/-- The source defaults: `':'`, `'\n'`, `'#'`. -/
def defaultConfig : ParserConfig :=
  ⟨':', "\n", "#"⟩

/-- The trailing `if key: key = key.strip()` / `if value: value = value.strip()`
of `_parse_line`: strip only truthy (non-`None`, non-empty) strings. -/
def stripIfTruthy : Option String → Option String
  | none => none
  | some s => if s = "" then some "" else some (pyStrip s)

/-- Python truthiness of `last_attribute_name`, which is `''` initially and
later either an attribute name or `None`. -/
def strOrNoneTruthy : Option String → Bool
  | none => false
  | some s => s ≠ ""

/-- The classification cascade of `WhoisTextParser._parse_line` before the
final stripping: blank (`line == '\n'`) or comment lines carry nothing, a
space- or tab-prefixed line is a continuation carrying the raw line as
value, and any other line must unpack `line.split(divider)` into exactly a
key and a value, raising `ValueError` otherwise. -/
def parseLineRaw (cfg : ParserConfig) (line : String) :
    Except PyErr (Option String × Option String) :=
  if line = "\n" || pyStartsWith line cfg.commentarySymbol then
    .ok (none, none)
  else if pyStartsWith line " " || pyStartsWith line "\t" then
    .ok (none, some line)
  else
    match pySplit cfg.attributeDivider line with
    | [k, v] => .ok (some k, some v)
    | _ => .error (.valueError line)

/-- `WhoisTextParser._parse_line`: the classification cascade followed by
`if key: key = key.strip()` and `if value: value = value.strip()`. -/
def parseLine (cfg : ParserConfig) (line : String) :
    Except PyErr (Option String × Option String) :=
  match parseLineRaw cfg line with
  | .error e => .error e
  | .ok (k, v) => .ok (stripIfTruthy k, stripIfTruthy v)

/-- The outcome of the `__next__` loop body on one line: keep looping with
updated state, return a finalized document, or raise. -/
inductive StepRes where
  | cont : WhoisDocument → Option String → StepRes
  | yield : WhoisDocument → StepRes
  | fail : PyErr → StepRes
deriving DecidableEq, Repr

/-- The body of the `for line in self._file` loop of
`WhoisTextParser.__next__`, acting on one line: the document-divider check
(with the divider-before-content no-op), `_parse_line`, the
skip-before-any-attribute guard, and the attribute / continuation
mutations, ending with `last_attribute_name = attribute`. -/
def lineStep (cfg : ParserConfig) (document : WhoisDocument)
    (last : Option String) (line : String) : StepRes :=
  if line = cfg.documentDividerPattern then
    if document.isEmpty then .cont document last
    else .yield (joinValues "\n" document)
  else
    match parseLine cfg line with
    | .error e => .fail e
    | .ok (attr, value) =>
      if attr.isNone && !strOrNoneTruthy last then .cont document last
      else
        match attr, value with
        | some a, some v =>
          if containsKey document a then
            match dictAppend document a v with
            | .error e => .fail e
            | .ok d2 => .cont d2 (some a)
          else .cont (dictSet document a (DocValue.frags [v])) (some a)
        | some a, none => .cont document (some a)
        | none, some v =>
          if v = "" then .cont document none
          else
            match last with
            | some l =>
              match dictAppend document l v with
              | .error e => .fail e
              | .ok d2 => .cont d2 none
            | none => .fail (.keyError "None")
        | none, none => .cont document none

/-- One call of `WhoisTextParser.__next__`, walking the remaining `lines`
with the in-progress `document` and `last_attribute_name`.  Returns
`.ok none` for `StopIteration`, `.ok (some (doc, rest))` when a finalized
document is returned with `rest` the lines not yet consumed, and `.error`
when a Python exception propagates. -/
def nextLoop (cfg : ParserConfig) (document : WhoisDocument)
    (last : Option String) :
    List String → Except PyErr (Option (WhoisDocument × List String))
  | [] =>
    if document.isEmpty then .ok none
    else .ok (some (joinValues "\n" document, []))
  | line :: rest =>
    match lineStep cfg document last line with
    | .cont d2 last2 => nextLoop cfg d2 last2 rest
    | .yield d => .ok (some (d, rest))
    | .fail e => .error e

/-- The consuming loop (`for document in parser`), with fuel bounding the
number of `__next__` calls.  Every produced document starts from a fresh
empty `WhoisDocument` and the initial `last_attribute_name = ''`, exactly
as in `__next__`. -/
def parseSteps (cfg : ParserConfig) : Nat → List String → Except PyErr (List WhoisDocument)
  | 0, _ => .ok []
  | fuel + 1, lines =>
    match nextLoop cfg [] (some "") lines with
    | .error e => .error e
    | .ok none => .ok []
    | .ok (some (doc, rest)) =>
      match parseSteps cfg fuel rest with
      | .error e => .error e
      | .ok docs => .ok (doc :: docs)

/-- The full parse of a line sequence: the list of documents the parser
yields, or the first propagated exception.  `lines.length + 1` calls of
`__next__` always suffice, since each yielded document consumes at least
one line (`nextLoop_rest_shorter`, `parseSteps_fuel_stable`). -/
def parseAll (cfg : ParserConfig) (lines : List String) :
    Except PyErr (List WhoisDocument) :=
  parseSteps cfg (lines.length + 1) lines

deriving instance DecidableEq for Except

/-! ### Supporting lemmas about Python string stripping -/

theorem dropWhile_head_false (p : Char → Bool) :
    ∀ (l : List Char) (c : Char), (l.dropWhile p).head? = some c → p c = false := by
  intro l
  induction l with
  | nil => intro c h; simp [List.dropWhile] at h
  | cons a t ih =>
    intro c h
    rw [List.dropWhile_cons] at h
    by_cases ha : p a
    · rw [if_pos ha] at h
      exact ih c h
    · rw [if_neg ha] at h
      simp only [List.head?_cons, Option.some.injEq] at h
      subst h
      exact Bool.not_eq_true _ |>.mp ha

theorem dropWhile_eq_self_of_head (p : Char → Bool) (l : List Char)
    (h : ∀ c, l.head? = some c → p c = false) : l.dropWhile p = l := by
  cases l with
  | nil => rfl
  | cons a t =>
    rw [List.dropWhile_cons, h a rfl]
    simp

theorem head?_of_isPrefix {l₁ l₂ : List Char} (h : l₁ <+: l₂) (c : Char)
    (hc : l₁.head? = some c) : l₂.head? = some c := by
  obtain ⟨t, rfl⟩ := h
  cases l₁ with
  | nil => simp at hc
  | cons a t1 => simpa using hc

theorem stripL_head (l : List Char) (c : Char) (h : (stripL l).head? = some c) :
    isPySpace c = false := by
  have hpre := List.rdropWhile_prefix isPySpace (l.dropWhile isPySpace)
  exact dropWhile_head_false isPySpace l c (head?_of_isPrefix hpre c h)

theorem stripL_idem (l : List Char) : stripL (stripL l) = stripL l := by
  show ((stripL l).dropWhile isPySpace).rdropWhile isPySpace = stripL l
  rw [dropWhile_eq_self_of_head isPySpace (stripL l) (stripL_head l)]
  show ((l.dropWhile isPySpace).rdropWhile isPySpace).rdropWhile isPySpace
      = (l.dropWhile isPySpace).rdropWhile isPySpace
  rw [List.rdropWhile_idempotent]

/-- Python string stripping is idempotent. -/
theorem pyStrip_idem (s : String) : pyStrip (pyStrip s) = pyStrip s := by
  show String.mk (stripL (stripL s.data)) = String.mk (stripL s.data)
  exact congrArg String.mk (stripL_idem s.data)

example : pySplit ':' "a:b:c\n" = ["a", "b", "c\n"] := by decide
example : pyStrip " b2\n" = "b2" := by decide
example : parseLine defaultConfig "a: 1\n" = .ok (some "a", some "1") := by decide
example :
    parseAll defaultConfig ["a: 1\n", " b2\n", "\n", "a: 3\n", "\n"]
      = .ok [[("a", DocValue.strv "1\nb2")], [("a", DocValue.strv "3")]] := by decide

/-! ### Helper lemmas about `parseLine` classification -/

/-- A whitespace-prefixed (or otherwise attribute-free) classification of a
line always reports `attribute = None`: for a line starting with a space or
a tab, `_parse_line` never fails and returns no attribute name. -/
theorem parseLine_ws_attr_none (cfg : ParserConfig) (line : String)
    (hws : pyStartsWith line " " = true ∨ pyStartsWith line "\t" = true) :
    ∃ v, parseLine cfg line = .ok (none, v) := by
  unfold parseLine parseLineRaw
  by_cases h1 : (line = "\n" || pyStartsWith line cfg.commentarySymbol) = true
  · rw [if_pos h1]
    exact ⟨none, rfl⟩
  · rw [if_neg h1]
    have h2 : (pyStartsWith line " " || pyStartsWith line "\t") = true := by
      rcases hws with h | h <;> simp [h]
    rw [if_pos h2]
    exact ⟨stripIfTruthy (some line), rfl⟩

/-- Any attribute name reported by `_parse_line` is already stripped:
it is either the untouched falsy `''` or the result of `key.strip()`. -/
theorem parseLine_attr_strip (cfg : ParserConfig) (line : String) (a : String)
    (v : Option String) (h : parseLine cfg line = .ok (some a, v)) :
    pyStrip a = a := by
  unfold parseLine at h
  split at h
  · cases h
  · rename_i k v0 heq
    rw [Except.ok.injEq, Prod.mk.injEq] at h
    obtain ⟨hk, _⟩ := h
    cases k with
    | none => simp [stripIfTruthy] at hk
    | some s =>
      by_cases hs : s = ""
      · rw [show stripIfTruthy (some s) = some "" from by rw [hs]; decide] at hk
        rw [Option.some.injEq] at hk
        rw [← hk]
        decide
      · rw [show stripIfTruthy (some s) = some (pyStrip s) from by
          simp [stripIfTruthy, hs]] at hk
        rw [Option.some.injEq] at hk
        rw [← hk]
        exact pyStrip_idem s

/-- Claim C4 (amended): a continuation-classified line (whitespace-prefixed,
and not the document divider) arriving while `last_attribute_name` is still
falsy — i.e. before any attribute has been recorded in the current record —
is silently skipped by the `attribute is None and not last_attribute_name`
guard: the parser state is unchanged, no error is raised and no missing-key
lookup happens. -/
theorem c4_orphan_continuation_silently_skipped (cfg : ParserConfig)
    (line : String) (document : WhoisDocument) (last : Option String)
    (rest : List String)
    (hdiv : line ≠ cfg.documentDividerPattern)
    (hws : pyStartsWith line " " = true ∨ pyStartsWith line "\t" = true)
    (hlast : strOrNoneTruthy last = false) :
    nextLoop cfg document last (line :: rest) = nextLoop cfg document last rest := by
  obtain ⟨v, hv⟩ := parseLine_ws_attr_none cfg line hws
  simp only [nextLoop, lineStep, if_neg hdiv, hv, Option.isNone_none, hlast,
    Bool.not_false, Bool.and_self, if_pos]

/-- Claim C4 (amended claim, concrete instance): an orphan continuation
line ahead of the first attribute line is dropped with no effect. -/
theorem c4_witness :
    nextLoop defaultConfig [] (some "") [" orphan\n", "k: v\n"]
      = nextLoop defaultConfig [] (some "") ["k: v\n"] :=
  c4_orphan_continuation_silently_skipped defaultConfig " orphan\n" [] (some "")
    ["k: v\n"] (by decide) (Or.inl (by decide)) (by decide)

/-- Claim C4 (counterexample to the claim as stated): a continuation line
before any attribute does NOT raise a `FormatError` — the whole parse of
`" orphan\n", "a: 1\n"` succeeds, silently dropping the orphan line. -/
theorem c4_counterexample_no_format_error :
    parseAll defaultConfig [" orphan\n", "a: 1\n"]
      = .ok [[("a", DocValue.strv "1")]] := by decide

/-- Claim C1 (code bug): `_parse_line` does not split on the first divider
occurrence only — it unpacks `line.split(':')`, so a key/value line whose
value contains the divider character raises `ValueError` instead of
parsing to the name and the full remainder; the error aborts the parse. -/
theorem c1_divider_in_value_raises :
    parseLine defaultConfig "name: va:lue\n"
      = .error (.valueError "name: va:lue\n")
  ∧ parseAll defaultConfig ["name: va:lue\n"]
      = .error (.valueError "name: va:lue\n") := by
  exact ⟨by decide, by decide⟩

/-- Claim C2 (code bug): inserting a comment line between an attribute line
and its continuation line changes the resulting document, because the
unconditional `last_attribute_name = attribute` sets the last attribute to
`None` on the comment line and the continuation is then skipped:
`a: 1` + ` b2` parses to `a = "1\nb2"`, but `a: 1` + `# c` + ` b2`
parses to `a = "1"`. -/
theorem c2_comment_not_transparent :
    parseAll defaultConfig ["a: 1\n", " b2\n"]
      = .ok [[("a", DocValue.strv "1\nb2")]]
  ∧ parseAll defaultConfig ["a: 1\n", "# c\n", " b2\n"]
      = .ok [[("a", DocValue.strv "1")]] := by
  exact ⟨by decide, by decide⟩

/-- Claim C3 (code bug): a second consecutive continuation line is silently
dropped (after one continuation line `last_attribute_name` is `None`, so
the next continuation line trips the skip guard): `name: part1` + ` part2`
+ ` part3` finalizes to `part1\npart2`, not `part1\npart2\npart3`. -/
theorem c3_second_continuation_dropped :
    parseAll defaultConfig ["name: part1\n", " part2\n", " part3\n"]
      = .ok [[("name", DocValue.strv "part1\npart2")]] := by decide

/-- Claim C5 (counterexample to the claim as stated): a line consisting of
the divider followed by a value parses to the empty-string attribute name
(Python `''` is falsy, so it is not `None` and is inserted as a key), and
that document is yielded. -/
theorem c5_counterexample_empty_name :
    parseAll defaultConfig [":v\n"] = .ok [[("", DocValue.strv "v")]] := by decide

/-- Claim C10: finalization is idempotent — `join_values` turns every list
value into a string and leaves string values alone, so a second call with
the same separator is the identity. -/
theorem c10_join_values_idempotent (sep : String) (d : WhoisDocument) :
    joinValues sep (joinValues sep d) = joinValues sep d := by
  induction d with
  | nil => rfl
  | cons p t ih =>
    obtain ⟨k, v⟩ := p
    cases v with
    | frags l => simpa [joinValues] using ih
    | strv s => simpa [joinValues] using ih

/-! ### Key-trimming invariant machinery -/

theorem keysStripped_nil : keysStripped [] := by
  intro p hp
  cases hp

theorem keysStripped_dictSet (d : WhoisDocument) (k : String) (v : DocValue)
    (hd : keysStripped d) (hk : pyStrip k = k) :
    keysStripped (dictSet d k v) := by
  unfold dictSet
  split
  · intro p hp
    rw [List.mem_map] at hp
    obtain ⟨q, hq, hpq⟩ := hp
    by_cases hqk : (q.1 == k) = true
    · rw [if_pos hqk] at hpq
      rw [← hpq]
      exact hk
    · rw [if_neg hqk] at hpq
      rw [← hpq]
      exact hd q hq
  · intro p hp
    rw [List.mem_append] at hp
    rcases hp with hp | hp
    · exact hd p hp
    · rw [List.mem_singleton] at hp
      rw [hp]
      exact hk

theorem keysStripped_dictAppend (d d2 : WhoisDocument) (k v : String)
    (hd : keysStripped d) (h : dictAppend d k v = .ok d2) :
    keysStripped d2 := by
  unfold dictAppend at h
  split at h
  · cases h
  · cases h
  · rename_i l heq
    rw [Except.ok.injEq] at h
    subst h
    intro p hp
    rw [List.mem_map] at hp
    obtain ⟨q, hq, hpq⟩ := hp
    by_cases hqk : (q.1 == k) = true
    · rw [if_pos hqk] at hpq
      rw [← hpq]
      have : q.1 = k := by simpa using hqk
      rw [← this]
      exact hd q hq
    · rw [if_neg hqk] at hpq
      rw [← hpq]
      exact hd q hq

theorem keysStripped_joinValues (sep : String) (d : WhoisDocument)
    (hd : keysStripped d) : keysStripped (joinValues sep d) := by
  intro p hp
  unfold joinValues at hp
  rw [List.mem_map] at hp
  obtain ⟨q, hq, hpq⟩ := hp
  have hk := hd q hq
  cases hv : q.2 with
  | frags l =>
    rw [hv] at hpq
    rw [← hpq]
    exact hk
  | strv s =>
    rw [hv] at hpq
    rw [← hpq]
    exact hk

/-! ### Inversion lemmas for the loop body -/

/-- If the loop body keeps looping, the updated document is either
untouched, extended by `document[attribute] = [value]` with a stripped
attribute name, or the result of an in-place `append`. -/
theorem lineStep_cont_inv (cfg : ParserConfig) (document : WhoisDocument)
    (last : Option String) (line : String) (d2 : WhoisDocument)
    (last2 : Option String)
    (h : lineStep cfg document last line = StepRes.cont d2 last2) :
    d2 = document
    ∨ (∃ a v, pyStrip a = a ∧ d2 = dictSet document a (DocValue.frags [v]))
    ∨ (∃ k v, dictAppend document k v = Except.ok d2) := by
  unfold lineStep at h
  split at h
  · split at h
    · rw [StepRes.cont.injEq] at h
      exact Or.inl h.1.symm
    · cases h
  · split at h
    · cases h
    · rename_i attr value heq
      split at h
      · rw [StepRes.cont.injEq] at h
        exact Or.inl h.1.symm
      · rename_i hguard
        split at h
        · rename_i a v
          split at h
          · split at h
            · cases h
            · rename_i d3 happ
              rw [StepRes.cont.injEq] at h
              exact Or.inr (Or.inr ⟨a, v, h.1 ▸ happ⟩)
          · rw [StepRes.cont.injEq] at h
            refine Or.inr (Or.inl ⟨a, v, ?_, h.1.symm⟩)
            exact parseLine_attr_strip cfg line a (some v) heq
        · rw [StepRes.cont.injEq] at h
          exact Or.inl h.1.symm
        · split at h
          · rw [StepRes.cont.injEq] at h
            exact Or.inl h.1.symm
          · split at h
            · split at h
              · cases h
              · rename_i d3 happ
                rw [StepRes.cont.injEq] at h
                exact Or.inr (Or.inr ⟨_, _, h.1 ▸ happ⟩)
            · cases h
        · rw [StepRes.cont.injEq] at h
          exact Or.inl h.1.symm

/-- If the loop body yields, it yields the finalized in-progress document,
and only when that document is non-empty. -/
theorem lineStep_yield_inv (cfg : ParserConfig) (document : WhoisDocument)
    (last : Option String) (line : String) (d : WhoisDocument)
    (h : lineStep cfg document last line = StepRes.yield d) :
    d = joinValues "\n" document ∧ document ≠ [] := by
  unfold lineStep at h
  split at h
  · split at h
    · cases h
    · rename_i hne
      rw [StepRes.yield.injEq] at h
      refine ⟨h.symm, ?_⟩
      simpa [List.isEmpty_iff] using hne
  · split at h
    · cases h
    · split at h
      · cases h
      · split at h
        · split at h
          · split at h
            · cases h
            · cases h
          · cases h
        · cases h
        · split at h
          · cases h
          · split at h
            · split at h
              · cases h
              · cases h
            · cases h
        · cases h

/-! ### Properties of one `__next__` call -/

theorem joinValues_ne_nil (sep : String) (d : WhoisDocument) (h : d ≠ []) :
    joinValues sep d ≠ [] := by
  unfold joinValues
  intro hc
  exact h (List.map_eq_nil_iff.mp hc)

/-- Any document returned by `__next__` is the finalized in-progress
document, and is non-empty. -/
theorem nextLoop_yield_ne_nil (cfg : ParserConfig) :
    ∀ (lines : List String) (document : WhoisDocument) (last : Option String)
      (d : WhoisDocument) (rest : List String),
      nextLoop cfg document last lines = .ok (some (d, rest)) → d ≠ [] := by
  intro lines
  induction lines with
  | nil =>
    intro document last d rest h
    simp only [nextLoop] at h
    split at h
    · cases h
    · rename_i hne
      rw [Except.ok.injEq, Option.some.injEq, Prod.mk.injEq] at h
      rw [← h.1]
      exact joinValues_ne_nil "\n" document (by simpa [List.isEmpty_iff] using hne)
  | cons line tail ih =>
    intro document last d rest h
    simp only [nextLoop] at h
    cases hstep : lineStep cfg document last line <;> rw [hstep] at h
    case cont d2 last2 => exact ih d2 last2 d rest h
    case yield dy =>
      rw [Except.ok.injEq, Option.some.injEq, Prod.mk.injEq] at h
      rw [← h.1]
      obtain ⟨hdy, hne⟩ := lineStep_yield_inv cfg document last line dy hstep
      rw [hdy]
      exact joinValues_ne_nil "\n" document hne
    case fail e => cases h

/-- Any document returned by `__next__` from a key-trimmed in-progress
document has all its attribute names trimmed. -/
theorem nextLoop_yield_keysStripped (cfg : ParserConfig) :
    ∀ (lines : List String) (document : WhoisDocument) (last : Option String)
      (d : WhoisDocument) (rest : List String),
      keysStripped document →
      nextLoop cfg document last lines = .ok (some (d, rest)) →
      keysStripped d := by
  intro lines
  induction lines with
  | nil =>
    intro document last d rest hd h
    simp only [nextLoop] at h
    split at h
    · cases h
    · rw [Except.ok.injEq, Option.some.injEq, Prod.mk.injEq] at h
      rw [← h.1]
      exact keysStripped_joinValues "\n" document hd
  | cons line tail ih =>
    intro document last d rest hd h
    simp only [nextLoop] at h
    cases hstep : lineStep cfg document last line <;> rw [hstep] at h
    case cont d2 last2 =>
      have hd2 : keysStripped d2 := by
        rcases lineStep_cont_inv cfg document last line d2 last2 hstep with
          rfl | ⟨a, v, ha, rfl⟩ | ⟨k, v, hap⟩
        · exact hd
        · exact keysStripped_dictSet document a (DocValue.frags [v]) hd ha
        · exact keysStripped_dictAppend document d2 k v hd hap
      exact ih d2 last2 d rest hd2 h
    case yield dy =>
      rw [Except.ok.injEq, Option.some.injEq, Prod.mk.injEq] at h
      rw [← h.1]
      obtain ⟨hdy, _⟩ := lineStep_yield_inv cfg document last line dy hstep
      rw [hdy]
      exact keysStripped_joinValues "\n" document hd
    case fail e => cases h

/-- `__next__` consumes at least one line whenever it returns a document
(unless the stream was already empty, in which case nothing remains). -/
theorem nextLoop_rest_shorter (cfg : ParserConfig) :
    ∀ (lines : List String) (document : WhoisDocument) (last : Option String)
      (d : WhoisDocument) (rest : List String),
      nextLoop cfg document last lines = .ok (some (d, rest)) →
      rest.length < lines.length ∨ rest = [] := by
  intro lines
  induction lines with
  | nil =>
    intro document last d rest h
    simp only [nextLoop] at h
    split at h
    · cases h
    · rw [Except.ok.injEq, Option.some.injEq, Prod.mk.injEq] at h
      exact Or.inr h.2.symm
  | cons line tail ih =>
    intro document last d rest h
    simp only [nextLoop] at h
    cases hstep : lineStep cfg document last line <;> rw [hstep] at h
    case cont d2 last2 =>
      rcases ih d2 last2 d rest h with hlt | hnil
      · exact Or.inl (Nat.lt_succ_of_lt hlt)
      · exact Or.inr hnil
    case yield dy =>
      rw [Except.ok.injEq, Option.some.injEq, Prod.mk.injEq] at h
      rw [← h.2]
      exact Or.inl (Nat.lt_succ_self _)
    case fail e => cases h

/-! ### Properties of the consuming loop -/

theorem parseSteps_nil (cfg : ParserConfig) :
    ∀ fuel, parseSteps cfg fuel [] = .ok [] := by
  intro fuel
  cases fuel with
  | zero => rfl
  | succ n => rfl

/-- Any fuel bound strictly larger than the number of lines produces the
same result: the loop always stops by itself first. -/
theorem parseSteps_fuel_stable (cfg : ParserConfig) :
    ∀ (f1 f2 : Nat) (lines : List String),
      lines.length < f1 → lines.length < f2 →
      parseSteps cfg f1 lines = parseSteps cfg f2 lines := by
  intro f1
  induction f1 with
  | zero =>
    intro f2 lines h1 _
    exact absurd h1 (Nat.not_lt_zero _)
  | succ g1 ih =>
    intro f2 lines h1 h2
    cases f2 with
    | zero => exact absurd h2 (Nat.not_lt_zero _)
    | succ g2 =>
      simp only [parseSteps]
      cases hnl : nextLoop cfg [] (some "") lines with
      | error e => rfl
      | ok o =>
        cases o with
        | none => rfl
        | some pr =>
          obtain ⟨d, rest⟩ := pr
          have hs : parseSteps cfg g1 rest = parseSteps cfg g2 rest := by
            rcases nextLoop_rest_shorter cfg lines [] (some "") d rest hnl with
              hlt | rfl
            · exact ih g2 rest (by omega) (by omega)
            · rw [parseSteps_nil, parseSteps_nil]
          exact congrArg (fun x => match x with
            | Except.error e => Except.error e
            | Except.ok docs => Except.ok (d :: docs)) hs

theorem parseSteps_docs_ne_nil (cfg : ParserConfig) :
    ∀ (fuel : Nat) (lines : List String) (docs : List WhoisDocument),
      parseSteps cfg fuel lines = .ok docs → ∀ d ∈ docs, d ≠ [] := by
  intro fuel
  induction fuel with
  | zero =>
    intro lines docs h d hd
    rw [show parseSteps cfg 0 lines = .ok [] from rfl, Except.ok.injEq] at h
    rw [← h] at hd
    cases hd
  | succ n ih =>
    intro lines docs h d hd
    simp only [parseSteps] at h
    split at h
    · cases h
    · rw [Except.ok.injEq] at h
      rw [← h] at hd
      cases hd
    · rename_i d0 rest heq
      split at h
      · cases h
      · rename_i docs2 heq2
        rw [Except.ok.injEq] at h
        rw [← h] at hd
        rcases List.mem_cons.mp hd with rfl | hmem
        · exact nextLoop_yield_ne_nil cfg lines [] (some "") d rest heq
        · exact ih rest docs2 heq2 d hmem

theorem parseSteps_keysStripped (cfg : ParserConfig) :
    ∀ (fuel : Nat) (lines : List String) (docs : List WhoisDocument),
      parseSteps cfg fuel lines = .ok docs → ∀ doc ∈ docs, keysStripped doc := by
  intro fuel
  induction fuel with
  | zero =>
    intro lines docs h doc hdoc
    rw [show parseSteps cfg 0 lines = .ok [] from rfl, Except.ok.injEq] at h
    rw [← h] at hdoc
    cases hdoc
  | succ n ih =>
    intro lines docs h doc hdoc
    simp only [parseSteps] at h
    split at h
    · cases h
    · rw [Except.ok.injEq] at h
      rw [← h] at hdoc
      cases hdoc
    · rename_i d0 rest heq
      split at h
      · cases h
      · rename_i docs2 heq2
        rw [Except.ok.injEq] at h
        rw [← h] at hdoc
        rcases List.mem_cons.mp hdoc with rfl | hmem
        · exact nextLoop_yield_keysStripped cfg lines [] (some "") doc rest
            keysStripped_nil heq
        · exact ih rest docs2 heq2 doc hmem

/-- A run of lines that are dividers or classify with no attribute is
wholly discarded while no attribute has been recorded: the remaining
`__next__` call ends with `StopIteration`. -/
theorem nextLoop_trivial_lines (cfg : ParserConfig) :
    ∀ (lines : List String) (last : Option String),
      strOrNoneTruthy last = false →
      (∀ l ∈ lines, l = cfg.documentDividerPattern
        ∨ ∃ v, parseLine cfg l = .ok (none, v)) →
      nextLoop cfg [] last lines = .ok none := by
  intro lines
  induction lines with
  | nil => intro last _ _; rfl
  | cons line tail ih =>
    intro last hlast htriv
    simp only [nextLoop]
    have hstep : lineStep cfg [] last line = .cont [] last := by
      rcases htriv line (List.mem_cons_self line tail) with heq | ⟨v, hv⟩
      · unfold lineStep
        rw [if_pos heq]
        rfl
      · unfold lineStep
        by_cases hdiv : line = cfg.documentDividerPattern
        · rw [if_pos hdiv]
          rfl
        · rw [if_neg hdiv, hv]
          simp [hlast]
    rw [hstep]
    exact ih last hlast (fun l hl => htriv l (List.mem_cons_of_mem line hl))

/-- Document-divider lines arriving while the in-progress document is
empty are discarded as no-ops, in any number. -/
theorem nextLoop_replicate_divider (cfg : ParserConfig) :
    ∀ (k : Nat) (last : Option String) (ys : List String),
      nextLoop cfg [] last (List.replicate k cfg.documentDividerPattern ++ ys)
        = nextLoop cfg [] last ys := by
  intro k
  induction k with
  | zero => intro last ys; rfl
  | succ n ih =>
    intro last ys
    rw [List.replicate_succ, List.cons_append]
    simp only [nextLoop]
    have hstep : lineStep cfg [] last cfg.documentDividerPattern = .cont [] last := by
      unfold lineStep
      rw [if_pos rfl]
      rfl
    rw [hstep]
    exact ih last ys

/-- Leading divider runs are invisible to the whole parse. -/
theorem parseAll_replicate_divider (cfg : ParserConfig) (k : Nat)
    (ys : List String) :
    parseAll cfg (List.replicate k cfg.documentDividerPattern ++ ys)
      = parseAll cfg ys := by
  unfold parseAll
  rw [List.length_append, List.length_replicate]
  simp only [parseSteps]
  rw [nextLoop_replicate_divider cfg k (some "") ys]
  cases hnl : nextLoop cfg [] (some "") ys with
  | error e => rfl
  | ok o =>
    cases o with
    | none => rfl
    | some pr =>
      obtain ⟨d, rest⟩ := pr
      have hs : parseSteps cfg (k + ys.length) rest
          = parseSteps cfg ys.length rest := by
        rcases nextLoop_rest_shorter cfg ys [] (some "") d rest hnl with hlt | rfl
        · exact parseSteps_fuel_stable cfg (k + ys.length) ys.length rest
            (by omega) (by omega)
        · rw [parseSteps_nil, parseSteps_nil]
      exact congrArg (fun x => match x with
        | Except.error e => Except.error e
        | Except.ok docs => Except.ok (d :: docs)) hs

/-! ### Dictionary lookup versus membership -/

theorem dictLookup_cons_self (k0 : String) (v0 : DocValue) (t : WhoisDocument) :
    dictLookup ((k0, v0) :: t) k0 = some v0 := by
  unfold dictLookup
  rw [List.find?_cons_of_pos]
  · rfl
  · simp

theorem dictLookup_cons_ne (k0 k : String) (hk : k0 ≠ k) (v0 : DocValue)
    (t : WhoisDocument) :
    dictLookup ((k0, v0) :: t) k = dictLookup t k := by
  unfold dictLookup
  rw [List.find?_cons_of_neg]
  simp [hk]

/-- With unique keys, Python `document[k]` returning `v` is the same as
`(k, v)` being one of the items. -/
theorem dictLookup_eq_some_iff (d : WhoisDocument) (hd : keysNodup d)
    (k : String) (v : DocValue) :
    dictLookup d k = some v ↔ (k, v) ∈ d := by
  induction d with
  | nil => simp [dictLookup]
  | cons q t ih =>
    obtain ⟨k0, v0⟩ := q
    have hd0 : k0 ∉ t.map Prod.fst := by
      have := hd
      unfold keysNodup at this
      rw [List.map_cons, List.nodup_cons] at this
      exact this.1
    have hdt : keysNodup t := by
      have := hd
      unfold keysNodup at this
      rw [List.map_cons, List.nodup_cons] at this
      exact this.2
    by_cases hk : k0 = k
    · subst hk
      rw [dictLookup_cons_self]
      constructor
      · intro h
        rw [Option.some.injEq] at h
        rw [h]
        exact List.mem_cons_self _ _
      · intro h
        rcases List.mem_cons.mp h with heq | hmem
        · rw [Prod.mk.injEq] at heq
          rw [heq.2]
        · exact absurd (List.mem_map.mpr ⟨(k0, v), hmem, rfl⟩) hd0
    · rw [dictLookup_cons_ne k0 k hk]
      rw [ih hdt]
      constructor
      · intro h
        exact List.mem_cons_of_mem _ h
      · intro h
        rcases List.mem_cons.mp h with heq | hmem
        · rw [Prod.mk.injEq] at heq
          exact absurd heq.1.symm hk
        · exact hmem

/-! ### Claim theorems (general) -/

/-- Claim C5 (amended): every attribute name in every yielded document is
trimmed of surrounding whitespace (stripping it again changes nothing) —
but, per `c5_counterexample_empty_name`, it may be the empty string. -/
theorem c5_attribute_names_trimmed (cfg : ParserConfig) (lines : List String)
    (docs : List WhoisDocument) (h : parseAll cfg lines = .ok docs) :
    ∀ doc ∈ docs, ∀ p ∈ doc, pyStrip p.1 = p.1 := by
  intro doc hdoc p hp
  exact parseSteps_keysStripped cfg (lines.length + 1) lines docs h doc hdoc p hp

/-- Claim C5 (witness instance of the amended claim). -/
theorem c5_witness : pyStrip "a" = "a" :=
  c5_attribute_names_trimmed defaultConfig ["a: 1\n"]
    [[("a", DocValue.strv "1")]] (by decide)
    [("a", DocValue.strv "1")] (by decide)
    ("a", DocValue.strv "1") (by decide)

/-- Claim C6: at end of stream, an attribute-less in-progress document ends
the sequence with no trailing empty record (in particular an input whose
lines are all dividers or attribute-free yields zero documents), while a
non-empty in-progress document is finalized and yielded — so a stream
ending right after its last attribute line still yields that record. -/
theorem c6_end_of_stream (cfg : ParserConfig) :
    (∀ last, nextLoop cfg [] last [] = .ok none)
  ∧ (∀ (document : WhoisDocument) (last : Option String), document ≠ [] →
      nextLoop cfg document last [] = .ok (some (joinValues "\n" document, [])))
  ∧ (∀ lines, (∀ l ∈ lines, l = cfg.documentDividerPattern
        ∨ ∃ v, parseLine cfg l = .ok (none, v)) →
      parseAll cfg lines = .ok [])
  ∧ parseAll defaultConfig ["tail: 1\n"] = .ok [[("tail", DocValue.strv "1")]] := by
  refine ⟨fun last => rfl, ?_, ?_, by decide⟩
  · intro document last hne
    simp only [nextLoop]
    rw [if_neg (by simpa [List.isEmpty_iff] using hne)]
  · intro lines htriv
    unfold parseAll
    simp only [parseSteps]
    rw [nextLoop_trivial_lines cfg lines (some "") (by decide) htriv]

/-- Claim C6 (witness): empty stream yields nothing; a one-attribute
in-progress document is finalized at end of stream; an input of only a
comment, a divider and a dangling continuation yields zero documents. -/
theorem c6_witness :
    nextLoop defaultConfig [] none [] = .ok none
  ∧ nextLoop defaultConfig [("a", DocValue.frags ["1"])] (some "a") []
      = .ok (some (joinValues "\n" [("a", DocValue.frags ["1"])], []))
  ∧ parseAll defaultConfig ["# note\n", "\n", " dangling\n"] = .ok [] := by
  obtain ⟨h1, h2, h3, _⟩ := c6_end_of_stream defaultConfig
  refine ⟨h1 none, h2 [("a", DocValue.frags ["1"])] (some "a") (by decide),
    h3 ["# note\n", "\n", " dangling\n"] ?_⟩
  intro l hl
  rw [List.mem_cons, List.mem_cons, List.mem_singleton] at hl
  rcases hl with rfl | rfl | rfl
  · exact Or.inr ⟨none, by decide⟩
  · exact Or.inl rfl
  · exact Or.inr ⟨some "dangling", by decide⟩

/-- Claim C7: the parser never yields an empty document — each `__next__`
return and each entry of a full parse is non-empty — and divider lines
seen while the current document is empty (leading runs included) are
discarded as no-ops, collapsing consecutive dividers to one boundary. -/
theorem c7_no_empty_documents (cfg : ParserConfig) :
    (∀ lines d rest, nextLoop cfg [] (some "") lines = .ok (some (d, rest))
        → d ≠ [])
  ∧ (∀ lines docs, parseAll cfg lines = .ok docs → ∀ d ∈ docs, d ≠ [])
  ∧ (∀ (k : Nat) (last : Option String) (ys : List String),
      nextLoop cfg [] last (List.replicate k cfg.documentDividerPattern ++ ys)
        = nextLoop cfg [] last ys)
  ∧ (∀ (k : Nat) (ys : List String),
      parseAll cfg (List.replicate k cfg.documentDividerPattern ++ ys)
        = parseAll cfg ys) := by
  refine ⟨?_, ?_, nextLoop_replicate_divider cfg, parseAll_replicate_divider cfg⟩
  · intro lines d rest h
    exact nextLoop_yield_ne_nil cfg lines [] (some "") d rest h
  · intro lines docs h
    exact parseSteps_docs_ne_nil cfg (lines.length + 1) lines docs h

/-- Claim C7 (witness): the document yielded from a concrete input is
non-empty, and a leading run of three divider lines is discarded. -/
theorem c7_witness :
    ([("a", DocValue.strv "1")] : WhoisDocument) ≠ []
  ∧ parseAll defaultConfig (List.replicate 3 "\n" ++ ["b: 2\n"])
      = parseAll defaultConfig ["b: 2\n"] := by
  obtain ⟨_, h2, _, h4⟩ := c7_no_empty_documents defaultConfig
  exact ⟨h2 ["a: 1\n"] [[("a", DocValue.strv "1")]] (by decide)
    [("a", DocValue.strv "1")] (by decide), h4 3 ["b: 2\n"]⟩

/-- Claim C8: for finalized documents with unique keys, Python dict
equality holds iff the (attribute, value) pairs form the same unordered
set — the very set `__hash__` feeds to `hash(frozenset(...))` — and hence
two documents with identical pairs inserted in different orders are equal
and have equal hash inputs. -/
theorem c8_equality_and_hash (d1 d2 : WhoisDocument)
    (hf1 : allStrv d1 = true) (hf2 : allStrv d2 = true)
    (h1 : keysNodup d1) (h2 : keysNodup d2) :
    (pyDictEqDoc d1 d2 ↔ frozensetItems d1 = frozensetItems d2)
  ∧ (d1.Perm d2 → pyDictEqDoc d1 d2 ∧ frozensetItems d1 = frozensetItems d2) := by
  have hmem : frozensetItems d1 = frozensetItems d2
      ↔ ∀ x : String × DocValue, x ∈ d1 ↔ x ∈ d2 := by
    constructor
    · intro h x
      have hx1 : x ∈ d1 ↔ x ∈ frozensetItems d1 := (List.mem_toFinset).symm
      have hx2 : x ∈ d2 ↔ x ∈ frozensetItems d2 := (List.mem_toFinset).symm
      rw [hx1, hx2, h]
    · intro h
      apply Finset.ext
      intro x
      unfold frozensetItems
      rw [List.mem_toFinset, List.mem_toFinset]
      exact h x
  have hiff : pyDictEqDoc d1 d2 ↔ frozensetItems d1 = frozensetItems d2 := by
    constructor
    · intro he
      rw [hmem]
      intro x
      obtain ⟨k, v⟩ := x
      rw [← dictLookup_eq_some_iff d1 h1 k v, ← dictLookup_eq_some_iff d2 h2 k v,
        he k]
    · intro hset k
      have hx := hmem.mp hset
      cases o1 : dictLookup d1 k with
      | some v1 =>
        have hm : (k, v1) ∈ d2 :=
          (hx (k, v1)).mp ((dictLookup_eq_some_iff d1 h1 k v1).mp o1)
        rw [(dictLookup_eq_some_iff d2 h2 k v1).mpr hm]
      | none =>
        cases o2 : dictLookup d2 k with
        | none => rfl
        | some v2 =>
          have hm : (k, v2) ∈ d1 :=
            (hx (k, v2)).mpr ((dictLookup_eq_some_iff d2 h2 k v2).mp o2)
          rw [(dictLookup_eq_some_iff d1 h1 k v2).mpr hm] at o1
          cases o1
  refine ⟨hiff, fun hperm => ?_⟩
  have hset : frozensetItems d1 = frozensetItems d2 := by
    rw [hmem]
    intro x
    exact hperm.mem_iff
  exact ⟨hiff.mpr hset, hset⟩

/-- Claim C8 (witness): the two-attribute documents `docA` and `docB`,
identical pairs in opposite insertion order, are dict-equal and have equal
hash inputs. -/
theorem c8_witness : pyDictEqDoc docA docB ∧ frozensetItems docA = frozensetItems docB :=
  (c8_equality_and_hash docA docB (by decide) (by decide)
    (by unfold keysNodup; decide) (by unfold keysNodup; decide)).2 (by decide)

/-- Claim C9: a line that is not the divider, not blank, not a comment and
not whitespace-prefixed, and whose split on the configured divider does
not have exactly two parts (divider absent, or more than two segments),
makes `_parse_line` raise the format `ValueError`; the error propagates
out of `__next__` and aborts the whole parse, not being swallowed. -/
theorem c9_format_error_propagates (cfg : ParserConfig) (line : String)
    (hdiv : line ≠ cfg.documentDividerPattern)
    (hblank : line ≠ "\n")
    (hcomment : pyStartsWith line cfg.commentarySymbol = false)
    (hspace : pyStartsWith line " " = false)
    (htab : pyStartsWith line "\t" = false)
    (hsplit : (pySplit cfg.attributeDivider line).length ≠ 2) :
    parseLine cfg line = .error (.valueError line)
  ∧ (∀ (document : WhoisDocument) (last : Option String) (rest : List String),
      nextLoop cfg document last (line :: rest) = .error (.valueError line))
  ∧ (∀ rest : List String,
      parseAll cfg (line :: rest) = .error (.valueError line)) := by
  have hraw : parseLineRaw cfg line = .error (.valueError line) := by
    unfold parseLineRaw
    rw [if_neg (by simp [hblank, hcomment]), if_neg (by simp [hspace, htab])]
    cases hs : pySplit cfg.attributeDivider line with
    | nil => rfl
    | cons a t =>
      cases t with
      | nil => rfl
      | cons b t2 =>
        cases t2 with
        | nil => exact absurd (by rw [hs]; rfl) hsplit
        | cons c t3 => rfl
  have hpl : parseLine cfg line = .error (.valueError line) := by
    unfold parseLine
    rw [hraw]
  have hstep : ∀ (document : WhoisDocument) (last : Option String),
      lineStep cfg document last line = .fail (.valueError line) := by
    intro document last
    unfold lineStep
    rw [if_neg hdiv, hpl]
  have hnl : ∀ (document : WhoisDocument) (last : Option String)
      (rest : List String),
      nextLoop cfg document last (line :: rest) = .error (.valueError line) := by
    intro document last rest
    simp only [nextLoop]
    rw [hstep]
  refine ⟨hpl, hnl, ?_⟩
  intro rest
  unfold parseAll
  rw [List.length_cons]
  simp only [parseSteps]
  rw [hnl [] (some "") rest]

/-- Claim C9 (witness): a divider-free line and a two-divider line both
abort the parse with the format error. -/
theorem c9_witness :
    parseAll defaultConfig ["no divider here\n"]
      = .error (.valueError "no divider here\n")
  ∧ parseAll defaultConfig ["a: b: c\n", "x: 1\n"]
      = .error (.valueError "a: b: c\n") := by
  constructor
  · exact (c9_format_error_propagates defaultConfig "no divider here\n"
      (by decide) (by decide) (by decide) (by decide) (by decide)
      (by decide)).2.2 []
  · exact (c9_format_error_propagates defaultConfig "a: b: c\n"
      (by decide) (by decide) (by decide) (by decide) (by decide)
      (by decide)).2.2 ["x: 1\n"]
